import Mathlib

/-!
Verification of the `tools/plot.py` ingestion/buffering/layout core.

A shallow embedding of `src/tools/plot.py` (bloodlight-firmware).  Python
lists become `List`, Python numeric sample values (`float`) become `ℚ`
(every value exercised by the spec's scenarios is an exact decimal),
Python strings become `List Char`, and fallible operations (list
indexing, `int()` / `float()` conversion, tuple unpacking) return
`Option`.  The module-level configuration constants `max_sources` and
`max_data_points` are passed as explicit parameters; the source fixes
them to `8` and `2000`.
-/

set_option autoImplicit false

namespace Plot

universe u

variable {α : Type u} {β : Type u}

/-! ## Channel buffer merge (plot.py lines 69–73)

`xs[i] = xs[i] + temp_xs[i]; ys[i] = ys[i] + temp_ys[i]`
followed by `if len(xs[i]) > max_data_points: xs[i] = xs[i][-max_data_points:];
ys[i] = ys[i][-max_data_points:]`. -/

/-- Python slice `l[-k:]`: the last `k` elements when `0 < k ≤ len l`;
the whole list when `k = 0` (Python reads `l[-0:]` as `l[0:]`) or when
`k ≥ len l`. -/
def pyTail (k : ℕ) (l : List α) : List α :=
  if k = 0 then l else l.drop (l.length - k)

/-- One lock-guarded batch merge into a single channel buffer list
(the operation plot.py applies to each of the parallel lists `xs[i]`,
`ys[i]`): concatenate, then truncate to the last `maxDP` entries if over
capacity. -/
def merge (maxDP : ℕ) (buf batch : List α) : List α :=
  let c := buf ++ batch
  if maxDP < c.length then pyTail maxDP c else c

/-- The merge of plot.py lines 69–73 on the pair of parallel lists,
exactly as written: both lists are concatenated, and the truncation of
*both* is guarded by the length of the x-list alone. -/
def mergePair (maxDP : ℕ) (bufX bufY batchX batchY : List ℚ) : List ℚ × List ℚ :=
  let cx := bufX ++ batchX
  let cy := bufY ++ batchY
  if maxDP < cx.length then (pyTail maxDP cx, pyTail maxDP cy) else (cx, cy)

/-- Folding a sequence of batch merges into one channel's buffer,
starting from the empty buffer. -/
def mergeAll (maxDP : ℕ) (batches : List (List α)) : List α :=
  batches.foldl (merge maxDP) []

/-- Folding a sequence of parallel-pair batch merges into one channel's
`(xs, ys)` buffer pair, starting from empty. -/
def mergeAllPair (maxDP : ℕ) (batches : List (List ℚ × List ℚ)) : List ℚ × List ℚ :=
  batches.foldl (fun buf b => mergePair maxDP buf.1 buf.2 b.1 b.2) ([], [])

/-- Spec-side definition ("the last `max_data_points` samples in arrival
order"): the final `k` elements of a list, in order. -/
def lastN (k : ℕ) (l : List α) : List α :=
  (l.reverse.take k).reverse

theorem lastN_eq_drop (k : ℕ) (l : List α) : lastN k l = l.drop (l.length - k) := by
  simp [lastN, List.take_reverse]

theorem length_lastN (k : ℕ) (l : List α) : (lastN k l).length = min k l.length := by
  simp [lastN]

theorem lastN_of_le {k : ℕ} {l : List α} (h : l.length ≤ k) : lastN k l = l := by
  simp [lastN_eq_drop, Nat.sub_eq_zero_of_le h]

theorem merge_eq_lastN {maxDP : ℕ} (h : 0 < maxDP) (buf batch : List α) :
    merge maxDP buf batch = lastN maxDP (buf ++ batch) := by
  unfold merge pyTail
  by_cases hc : maxDP < (buf ++ batch).length
  · simp only [hc, if_true, Nat.pos_iff_ne_zero.mp h, if_false]
    exact (lastN_eq_drop maxDP (buf ++ batch)).symm
  · simp only [hc, if_false]
    exact (lastN_of_le (Nat.le_of_not_lt hc)).symm

theorem lastN_append (k : ℕ) (a b : List α) :
    lastN k (lastN k a ++ b) = lastN k (a ++ b) := by
  simp only [lastN, List.reverse_append, List.reverse_reverse,
    List.take_append_eq_append_take, List.take_take, List.length_reverse]
  rw [min_eq_left (Nat.sub_le k b.length)]

theorem foldl_merge_eq_lastN {maxDP : ℕ} (h : 0 < maxDP) (batches : List (List α)) :
    ∀ acc : List α,
      batches.foldl (merge maxDP) (lastN maxDP acc) = lastN maxDP (acc ++ batches.flatten) := by
  induction batches with
  | nil => intro acc; simp
  | cons b rest ih =>
      intro acc
      simp only [List.foldl_cons, List.flatten_cons]
      rw [merge_eq_lastN h, lastN_append, ih (acc ++ b), List.append_assoc]

theorem mergeAll_eq_lastN {maxDP : ℕ} (h : 0 < maxDP) (batches : List (List α)) :
    mergeAll maxDP batches = lastN maxDP batches.flatten := by
  have h0 : (lastN maxDP ([] : List α)) = [] := by simp [lastN]
  have := foldl_merge_eq_lastN h batches ([] : List α)
  rw [h0] at this
  simpa [mergeAll] using this

theorem length_merge_pos {maxDP : ℕ} (h : 0 < maxDP) (buf batch : List α) :
    (merge maxDP buf batch).length = min maxDP (buf ++ batch).length := by
  rw [merge_eq_lastN h, length_lastN]

theorem mergePair_eq {maxDP : ℕ} {bufX bufY batchX batchY : List ℚ}
    (hb : bufX.length = bufY.length) (ht : batchX.length = batchY.length) :
    mergePair maxDP bufX bufY batchX batchY =
      (merge maxDP bufX batchX, merge maxDP bufY batchY) := by
  have hlen : (bufX ++ batchX).length = (bufY ++ batchY).length := by
    simp [hb, ht]
  unfold mergePair merge
  by_cases hc : maxDP < (bufX ++ batchX).length
  · have hc' : maxDP < (bufY ++ batchY).length := hlen ▸ hc
    simp only [List.length_append] at hc hc'
    simp [hc, hc']
  · have hc' : ¬ maxDP < (bufY ++ batchY).length := hlen ▸ hc
    simp only [List.length_append] at hc hc'
    simp [hc, hc']

theorem zip_drop_eq (j : ℕ) :
    ∀ (X Y : List ℚ), X.length = Y.length →
      (X.drop j).zip (Y.drop j) = (X.zip Y).drop j := by
  induction j with
  | zero => intro X Y _; simp
  | succ n ih =>
      intro X Y h
      match X, Y with
      | [], [] => simp
      | x :: xs, y :: ys =>
          simp only [List.drop_succ_cons, List.zip_cons_cons]
          exact ih xs ys (by simpa using h)

theorem zip_lastN (k : ℕ) (X Y : List ℚ) (h : X.length = Y.length) :
    (lastN k X).zip (lastN k Y) = lastN k (X.zip Y) := by
  rw [lastN_eq_drop, lastN_eq_drop, lastN_eq_drop, ← h,
    List.length_zip, ← h, min_self]
  exact zip_drop_eq (X.length - k) X Y h

theorem zip_join_eq :
    ∀ bs : List (List ℚ × List ℚ), (∀ b ∈ bs, b.1.length = b.2.length) →
      (bs.map Prod.fst).flatten.zip (bs.map Prod.snd).flatten =
        (bs.map fun b => b.1.zip b.2).flatten := by
  intro bs
  induction bs with
  | nil => intro _; simp
  | cons b rest ih =>
      intro h
      simp only [List.map_cons, List.flatten_cons]
      rw [List.zip_append (h b (List.mem_cons_self b rest)),
        ih fun x hx => h x (List.mem_cons_of_mem b hx)]

theorem join_length_eq :
    ∀ bs : List (List ℚ × List ℚ), (∀ b ∈ bs, b.1.length = b.2.length) →
      (bs.map Prod.fst).flatten.length = (bs.map Prod.snd).flatten.length := by
  intro bs
  induction bs with
  | nil => intro _; simp
  | cons b rest ih =>
      intro h
      simp only [List.map_cons, List.flatten_cons, List.length_append]
      rw [h b (List.mem_cons_self b rest), ih fun x hx => h x (List.mem_cons_of_mem b hx)]

theorem foldl_mergePair_eq {maxDP : ℕ} (h : 0 < maxDP) :
    ∀ (batches : List (List ℚ × List ℚ)), (∀ b ∈ batches, b.1.length = b.2.length) →
      ∀ (accX accY : List ℚ), accX.length = accY.length →
        batches.foldl (fun buf b => mergePair maxDP buf.1 buf.2 b.1 b.2) (accX, accY) =
          ((batches.map Prod.fst).foldl (merge maxDP) accX,
           (batches.map Prod.snd).foldl (merge maxDP) accY) := by
  intro batches
  induction batches with
  | nil => intro _ accX accY _; simp
  | cons b rest ih =>
      intro hlen accX accY hacc
      have hb : b.1.length = b.2.length := hlen b (List.mem_cons_self b rest)
      simp only [List.foldl_cons, List.map_cons]
      rw [mergePair_eq hacc hb]
      exact ih (fun x hx => hlen x (List.mem_cons_of_mem b hx)) _ _
        (by rw [length_merge_pos h, length_merge_pos h]
            simp [hacc, hb])

theorem mergeAllPair_eq {maxDP : ℕ} (h : 0 < maxDP) (batches : List (List ℚ × List ℚ))
    (hlen : ∀ b ∈ batches, b.1.length = b.2.length) :
    mergeAllPair maxDP batches =
      (mergeAll maxDP (batches.map Prod.fst), mergeAll maxDP (batches.map Prod.snd)) :=
  foldl_mergePair_eq h batches hlen [] [] rfl

/-- C1. For every channel and every sequence of non-empty batch merges
into that channel's buffer (the merge of plot.py lines 69–73, folded over
the per-cycle batches; since the batch sequence is universally quantified
the statement applies after *each* merge, by instantiating it at every
prefix), the buffer length is at most `max_data_points`, and the buffer's
sample pairs are exactly the last `max_data_points` samples ever appended
to the channel, in arrival order. -/
theorem buffer_bounded_and_is_last_samples (maxDP : ℕ) (hpos : 0 < maxDP)
    (batches : List (List ℚ × List ℚ))
    (hlen : ∀ b ∈ batches, b.1.length = b.2.length)
    (_hne : ∀ b ∈ batches, b.1 ≠ []) :
    (mergeAllPair maxDP batches).1.length ≤ maxDP ∧
    (mergeAllPair maxDP batches).2.length ≤ maxDP ∧
    (mergeAllPair maxDP batches).1.zip (mergeAllPair maxDP batches).2 =
      lastN maxDP ((batches.map fun b => b.1.zip b.2).flatten) := by
  clear _hne
  rw [mergeAllPair_eq hpos batches hlen]
  dsimp only
  refine ⟨?_, ?_, ?_⟩
  · rw [mergeAll_eq_lastN hpos, length_lastN]
    exact min_le_left _ _
  · rw [mergeAll_eq_lastN hpos, length_lastN]
    exact min_le_left _ _
  · rw [mergeAll_eq_lastN hpos, mergeAll_eq_lastN hpos,
      zip_lastN _ _ _ (join_length_eq batches hlen), zip_join_eq batches hlen]

/-- Witness for C1 at `max_data_points = 2` with two non-empty batches. -/
theorem buffer_bounded_and_is_last_samples_witness :
    (0 < 2) ∧
    ((mergeAllPair 2 [(([1, 2] : List ℚ), ([10, 20] : List ℚ)), ([3], [30])]).1.length ≤ 2 ∧
     (mergeAllPair 2 [(([1, 2] : List ℚ), ([10, 20] : List ℚ)), ([3], [30])]).2.length ≤ 2 ∧
     (mergeAllPair 2 [(([1, 2] : List ℚ), ([10, 20] : List ℚ)), ([3], [30])]).1.zip
        (mergeAllPair 2 [(([1, 2] : List ℚ), ([10, 20] : List ℚ)), ([3], [30])]).2 =
       lastN 2 (([(([1, 2] : List ℚ), ([10, 20] : List ℚ)), ([3], [30])].map
         fun b => b.1.zip b.2).flatten)) :=
  ⟨by decide,
   buffer_bounded_and_is_last_samples 2 (by decide) _ (by decide) (by decide)⟩

/-! ## Grid layout formula (plot.py lines 81–84)

`rows = math.ceil(math.sqrt(n + 1/4) - 1/2)`, `cols = math.ceil(math.sqrt(n))`.
The ceiling of a square-root expression is embedded in exact arithmetic as
the least natural number above it: `⌈√(n + 1/4) - 1/2⌉ = min {k | n + 1/4 ≤
(k + 1/2)²}` and `⌈√n⌉ = min {k | n ≤ k²}`.  `calc_grid_eq_real_formula`
below proves this embedding equal to the real-valued source formula (for
the source's argument range, `n ≤ max_sources = 8`, the float evaluation is
exact on all decision boundaries, so the real formula is the faithful
reading of the Python float one). -/

theorem rows_bound_exists (n : ℕ) : ∃ k : ℕ, (n : ℚ) + 1/4 ≤ ((k : ℚ) + 1/2)^2 :=
  ⟨n, by have := sq_nonneg ((n : ℚ)); nlinarith⟩

theorem cols_bound_exists (n : ℕ) : ∃ k : ℕ, (n : ℚ) ≤ ((k : ℚ))^2 := by
  refine ⟨n, ?_⟩
  have h : n ≤ n ^ 2 := Nat.le_self_pow (by norm_num) n
  exact_mod_cast h

/-- plot.py lines 81–84. -/
def calc_grid (n : ℕ) : ℕ × ℕ :=
  (Nat.find (rows_bound_exists n), Nat.find (cols_bound_exists n))

theorem calc_grid_eq {n r c : ℕ}
    (h1 : (n : ℚ) + 1/4 ≤ ((r : ℚ) + 1/2)^2)
    (h2 : ∀ m < r, ¬ ((n : ℚ) + 1/4 ≤ ((m : ℚ) + 1/2)^2))
    (h3 : (n : ℚ) ≤ ((c : ℚ))^2)
    (h4 : ∀ m < c, ¬ ((n : ℚ) ≤ ((m : ℚ))^2)) :
    calc_grid n = (r, c) := by
  unfold calc_grid
  rw [Prod.mk.injEq]
  exact ⟨(Nat.find_eq_iff _).mpr ⟨h1, h2⟩, (Nat.find_eq_iff _).mpr ⟨h3, h4⟩⟩

theorem nat_least_eq_ceil {x : ℝ} (hx : 0 ≤ x) {f : ℕ}
    (hup : x ≤ (f : ℝ)) (hlow : ∀ m : ℕ, m < f → ¬ x ≤ (m : ℝ)) :
    (f : ℤ) = ⌈x⌉ := by
  symm
  rw [Int.ceil_eq_iff]
  refine ⟨?_, by exact_mod_cast hup⟩
  cases f with
  | zero => push_cast; linarith
  | succ g =>
      have := hlow g (Nat.lt_succ_self g)
      push_neg at this
      push_cast
      linarith

theorem rat_bound_iff_real_rows (n k : ℕ) :
    ((n : ℚ) + 1/4 ≤ ((k : ℚ) + 1/2)^2) ↔
      Real.sqrt ((n : ℝ) + 1/4) - 1/2 ≤ (k : ℝ) := by
  constructor
  · intro h
    have hR : (n : ℝ) + 1/4 ≤ ((k : ℝ) + 1/2)^2 := by
      have h2 : ((((n : ℚ) + 1/4 : ℚ)) : ℝ) ≤ (((((k : ℚ) + 1/2)^2 : ℚ)) : ℝ) := by
        exact_mod_cast h
      push_cast at h2
      convert h2 using 2
    have := Real.sqrt_le_sqrt hR
    rw [Real.sqrt_sq (by positivity)] at this
    linarith
  · intro h
    have hs : Real.sqrt ((n : ℝ) + 1/4) ≤ (k : ℝ) + 1/2 := by linarith
    have hR : (n : ℝ) + 1/4 ≤ ((k : ℝ) + 1/2)^2 := by
      have := Real.sq_sqrt (show (0:ℝ) ≤ (n : ℝ) + 1/4 by positivity)
      nlinarith [Real.sqrt_nonneg ((n : ℝ) + 1/4)]
    have h2 : ((((n : ℚ) + 1/4 : ℚ)) : ℝ) ≤ (((((k : ℚ) + 1/2)^2 : ℚ)) : ℝ) := by
      push_cast
      convert hR using 2
    exact_mod_cast h2

theorem rat_bound_iff_real_cols (n k : ℕ) :
    ((n : ℚ) ≤ ((k : ℚ))^2) ↔ Real.sqrt (n : ℝ) ≤ (k : ℝ) := by
  constructor
  · intro h
    have hR : (n : ℝ) ≤ ((k : ℝ))^2 := by exact_mod_cast h
    have := Real.sqrt_le_sqrt hR
    rw [Real.sqrt_sq (by positivity)] at this
    exact this
  · intro h
    have hR : (n : ℝ) ≤ ((k : ℝ))^2 := by
      have := Real.sq_sqrt (show (0:ℝ) ≤ (n : ℝ) by positivity)
      nlinarith [Real.sqrt_nonneg ((n : ℝ))]
    exact_mod_cast hR

/-- The exact-arithmetic `calc_grid` agrees with the real-valued source
formula `rows = ⌈√(n + 1/4) - 1/2⌉`, `cols = ⌈√n⌉`. -/
theorem calc_grid_eq_real_formula (n : ℕ) :
    (((calc_grid n).1 : ℤ) = ⌈Real.sqrt ((n : ℝ) + 1/4) - 1/2⌉) ∧
    (((calc_grid n).2 : ℤ) = ⌈Real.sqrt (n : ℝ)⌉) := by
  constructor
  · apply nat_least_eq_ceil
    · have h14 : Real.sqrt (1/4 : ℝ) = 1/2 := by
        rw [show (1/4 : ℝ) = (1/2)^2 by norm_num, Real.sqrt_sq (by norm_num)]
      have := Real.sqrt_le_sqrt (show (1/4 : ℝ) ≤ (n : ℝ) + 1/4 by
        have := Nat.cast_nonneg (α := ℝ) n; linarith)
      rw [h14] at this
      linarith
    · exact (rat_bound_iff_real_rows n _).mp (Nat.find_spec (rows_bound_exists n))
    · intro m hm h
      exact Nat.find_min (rows_bound_exists n) hm ((rat_bound_iff_real_rows n m).mpr h)
  · apply nat_least_eq_ceil (Real.sqrt_nonneg _)
    · exact (rat_bound_iff_real_cols n _).mp (Nat.find_spec (cols_bound_exists n))
    · intro m hm h
      exact Nat.find_min (cols_bound_exists n) hm ((rat_bound_iff_real_cols n m).mpr h)

/-- C2 counterexample. The claim asserts grid dimensions
`2×3` at `n = 4` and `3×3` at `n = 5`; the source formula yields `2×2`
at `n = 4` and `2×3` at `n = 5`. -/
theorem calc_grid_claim_counterexample :
    calc_grid 4 = (2, 2) ∧ calc_grid 4 ≠ (2, 3) ∧
    calc_grid 5 = (2, 3) ∧ calc_grid 5 ≠ (3, 3) := by
  have h4 : calc_grid 4 = (2, 2) :=
    calc_grid_eq (by norm_num) (by intro m hm; interval_cases m <;> norm_num)
      (by norm_num) (by intro m hm; interval_cases m <;> norm_num)
  have h5 : calc_grid 5 = (2, 3) :=
    calc_grid_eq (by norm_num) (by intro m hm; interval_cases m <;> norm_num)
      (by norm_num) (by intro m hm; interval_cases m <;> norm_num)
  refine ⟨h4, by rw [h4]; decide, h5, by rw [h5]; decide⟩

/-- C2 amended. For region counts `n = 1, 2, 3, 4, 5` the grid
dimensions are `1×1, 1×2, 2×2, 2×2, 2×3`; the `2×3` layout first appears
at `n = 5` and the `3×3` layout first appears at `n = 7`, so the layout
progresses `1×1→1×2→2×2→2×3→3×3`, but not at one step per channel. -/
theorem calc_grid_progression :
    calc_grid 1 = (1, 1) ∧ calc_grid 2 = (1, 2) ∧ calc_grid 3 = (2, 2) ∧
    calc_grid 4 = (2, 2) ∧ calc_grid 5 = (2, 3) ∧ calc_grid 6 = (2, 3) ∧
    calc_grid 7 = (3, 3) := by
  refine ⟨?_, ?_, ?_, ?_, ?_, ?_, ?_⟩ <;>
    exact calc_grid_eq (by norm_num) (by intro m hm; interval_cases m <;> norm_num)
      (by norm_num) (by intro m hm; interval_cases m <;> norm_num)

/-! ## Layout manager (plot.py lines 87–127, `animate`)

Per channel `i in range(max_sources)`: scan `ax_channel` for a region
showing `i` (`chan_ax`); if none and `len(xs[i])` is non-zero, rebuild the
grid — the rebuilt `ax_channel` is the old one re-appended in order with
`i` appended at the end (lines 99–114), so the net effect on the region
list is `ax_channel ++ [i]`.  `axes`/`ax_channel` are only mutated in that
branch; `xs`/`ys` are never assigned. -/

/-- The effect of one `animate` call on the region list `ax_channel`. -/
def animate_layout (maxSources : ℕ) (xs : List (List ℚ)) (ax_channel : List ℕ) : List ℕ :=
  (List.range maxSources).foldl
    (fun acc i =>
      if i ∈ acc then acc
      else if xs.getD i [] = [] then acc
      else acc ++ [i])
    ax_channel

/-- The channels for which one `animate` pass creates a region: those not
yet in `ax_channel` whose x-buffer is non-empty, in channel order. -/
def newlyActive (maxSources : ℕ) (xs : List (List ℚ)) (ac : List ℕ) : List ℕ :=
  (List.range maxSources).filter fun i => decide (i ∉ ac) && decide (xs.getD i [] ≠ [])

theorem foldl_layout_eq (xs : List (List ℚ)) :
    ∀ L : List ℕ, L.Nodup → ∀ acc : List ℕ,
      L.foldl (fun acc i =>
          if i ∈ acc then acc
          else if xs.getD i [] = [] then acc
          else acc ++ [i]) acc =
        acc ++ (L.filter fun i => decide (i ∉ acc) && decide (xs.getD i [] ≠ [])) := by
  intro L
  induction L with
  | nil => intro _ acc; simp
  | cons i L ih =>
      intro hnd acc
      have hiL : i ∉ L := (List.nodup_cons.mp hnd).1
      have hL : L.Nodup := (List.nodup_cons.mp hnd).2
      simp only [List.foldl_cons, List.filter_cons]
      by_cases hmem : i ∈ acc
      · have h1 : decide (i ∉ acc) = false := decide_eq_false (not_not_intro hmem)
        rw [if_pos hmem, ih hL acc, h1, Bool.false_and, if_neg Bool.false_ne_true]
      · by_cases hdata : xs.getD i [] = []
        · have h2 : decide (xs.getD i [] ≠ []) = false := decide_eq_false (not_not_intro hdata)
          rw [if_neg hmem, if_pos hdata, ih hL acc, h2, Bool.and_false,
            if_neg Bool.false_ne_true]
        · have hfilter :
              (L.filter fun j => decide (j ∉ acc ++ [i]) && decide (xs.getD j [] ≠ [])) =
              (L.filter fun j => decide (j ∉ acc) && decide (xs.getD j [] ≠ [])) := by
            apply List.filter_congr
            intro j hj
            have hji : j ≠ i := fun h => hiL (h ▸ hj)
            by_cases hja : j ∈ acc
            · simp [hja]
            · have : j ∉ acc ++ [i] := by
                simp only [List.mem_append, List.mem_singleton]
                push_neg
                exact ⟨hja, hji⟩
              simp [hja, this]
          rw [if_neg hmem, if_neg hdata, ih hL (acc ++ [i]), hfilter]
          have hpi : (decide (i ∉ acc) && decide (xs.getD i [] ≠ [])) = true := by
            rw [Bool.and_eq_true, decide_eq_true_eq, decide_eq_true_eq]
            exact ⟨hmem, hdata⟩
          rw [hpi, if_pos rfl, List.append_assoc]
          rfl

theorem animate_layout_eq (maxSources : ℕ) (xs : List (List ℚ)) (ac : List ℕ) :
    animate_layout maxSources xs ac = ac ++ newlyActive maxSources xs ac :=
  foldl_layout_eq xs (List.range maxSources) (List.nodup_range _) ac

theorem newlyActive_disjoint (maxSources : ℕ) (xs : List (List ℚ)) (ac : List ℕ) :
    ∀ a, a ∈ ac → a ∉ newlyActive maxSources xs ac := by
  intro a ha hmem
  rcases List.mem_filter.mp hmem with ⟨-, hp⟩
  simp only [Bool.and_eq_true, decide_eq_true_eq] at hp
  exact hp.1 ha

/-- C4. After a render tick from any duplicate-free region list: the
region list stays duplicate-free (each channel appears at most once); the
old region list is preserved in order as a prefix (no channel ever loses
its region, and every existing channel↔region association is kept); and
the regions appended are exactly one per newly active channel (a channel
not yet shown whose buffer is non-empty), at the end. -/
theorem layout_state_invariant (maxSources : ℕ) (xs : List (List ℚ)) (ac : List ℕ)
    (hnd : ac.Nodup) :
    (animate_layout maxSources xs ac).Nodup ∧
    (∃ t, animate_layout maxSources xs ac = ac ++ t) ∧
    animate_layout maxSources xs ac = ac ++ newlyActive maxSources xs ac ∧
    (∀ j, j ∈ ac → j ∈ animate_layout maxSources xs ac) := by
  have hchar := animate_layout_eq maxSources xs ac
  refine ⟨?_, ⟨_, hchar⟩, hchar, ?_⟩
  · rw [hchar]
    apply List.Nodup.append hnd (List.Nodup.filter _ (List.nodup_range _))
    intro a ha
    exact newlyActive_disjoint maxSources xs ac a ha
  · intro j hj
    rw [hchar]
    exact List.mem_append_left _ hj

/-- Witness for C4: `max_sources = 3`, channel 0 already has a region,
channel 1 has data and no region, channel 2 has no data. -/
theorem layout_state_invariant_witness :
    ([0] : List ℕ).Nodup ∧
    ((animate_layout 3 [[], [(1 : ℚ)], []] [0]).Nodup ∧
     (∃ t, animate_layout 3 [[], [(1 : ℚ)], []] [0] = [0] ++ t) ∧
     animate_layout 3 [[], [(1 : ℚ)], []] [0] =
       [0] ++ newlyActive 3 [[], [(1 : ℚ)], []] [0] ∧
     (∀ j, j ∈ ([0] : List ℕ) → j ∈ animate_layout 3 [[], [(1 : ℚ)], []] [0])) :=
  ⟨by decide, layout_state_invariant 3 [[], [(1 : ℚ)], []] [0] (by decide)⟩

/-- The mutable state `animate` touches: the per-channel buffers (read
only) and the region list (read and written). -/
structure PlotState where
  xs : List (List ℚ)
  ys : List (List ℚ)
  ax_channel : List ℕ

/-- The effect of one `animate` call (one render tick) on that state:
`ax_channel` is rewritten as above; `xs` and `ys` are never assigned
(lines 98, 120 and 123 only read them). -/
def animate (maxSources : ℕ) (st : PlotState) : PlotState :=
  { st with ax_channel := animate_layout maxSources st.xs st.ax_channel }

theorem animate_layout_idem (maxSources : ℕ) (xs : List (List ℚ)) (ac : List ℕ) :
    animate_layout maxSources xs (animate_layout maxSources xs ac) =
      animate_layout maxSources xs ac := by
  rw [animate_layout_eq maxSources xs (animate_layout maxSources xs ac)]
  have hempty : newlyActive maxSources xs (animate_layout maxSources xs ac) = [] := by
    unfold newlyActive
    rw [List.filter_eq_nil_iff]
    intro i hi
    simp only [Bool.and_eq_true, decide_eq_true_eq, not_and]
    intro hnotin
    by_contra hdata
    apply hnotin
    rw [animate_layout_eq]
    by_cases hac : i ∈ ac
    · exact List.mem_append_left _ hac
    · refine List.mem_append_right _ (List.mem_filter.mpr ⟨hi, ?_⟩)
      rw [Bool.and_eq_true, decide_eq_true_eq, decide_eq_true_eq]
      exact ⟨hac, hdata⟩
  rw [hempty, List.append_nil]

/-- C9. Calling the render tick twice in succession with no new
ingested data in between leaves the layout state and every channel's
buffer unchanged; moreover a single tick never writes any buffer. -/
theorem tick_idempotent (maxSources : ℕ) (st : PlotState) :
    animate maxSources (animate maxSources st) = animate maxSources st ∧
    (animate maxSources st).xs = st.xs ∧
    (animate maxSources st).ys = st.ys := by
  refine ⟨?_, rfl, rfl⟩
  show PlotState.mk _ _ _ = PlotState.mk _ _ _
  rw [PlotState.mk.injEq]
  exact ⟨rfl, rfl, animate_layout_idem maxSources st.xs st.ax_channel⟩

/-! ## Shutdown flag (plot.py lines 19, 129–137)

`killed` is a module-level boolean, set to `True` by `handle_close`.  But
`read_new_data_from_stdin` and `animate` receive `killed` as a *parameter*
— bound, by value, when `threading.Thread(... args=(xs, ys, max_sources,
killed, locks))` and `FuncAnimation(... fargs=(..., killed, ...))` are
constructed at lines 135–136, while `killed` is still `False`.  A Python
bool is immutable, so every `while not killed` in those functions tests
that frozen snapshot, not the global the close handler writes. -/

/-- The module-level globals relevant to shutdown. -/
structure Globals where
  killed : Bool

/-- Line 19: `killed = False`. -/
def initGlobals : Globals := { killed := false }

/-- Lines 129–131: the close handler sets the global flag. -/
def handle_close (g : Globals) : Globals := { g with killed := true }

/-- The value bound into the thread's `args` / the animation's `fargs`
tuple at construction time (lines 135–136): the then-current global. -/
def spawnKilledArg (atSpawn : Globals) : Bool := atSpawn.killed

/-- Guard of the ingestion loop (line 41) and of every lock-retry loop
(lines 67, 121): `while not killed`, reading the bound parameter. -/
def loopContinues (killedParam : Bool) : Bool := !killedParam

/-- C3 is violated by the code: after `handle_close` sets the global
flag, the ingestion loop's guard — which reads the parameter snapshotted
at thread start, before the close — still evaluates to "continue", so
neither the outer ingestion loop nor any lock-retry loop ever observes
the shutdown request. -/
theorem shutdown_flag_not_observed :
    (handle_close initGlobals).killed = true ∧
    loopContinues (spawnKilledArg initGlobals) = true ∧
    spawnKilledArg initGlobals ≠ (handle_close initGlobals).killed := by
  refine ⟨rfl, rfl, ?_⟩
  decide

/-! ## Line parser (plot.py lines 30–32)

`def get_data_from_line(line): s,x,y = line.split(','); return int(s),
float(x), float(y)`.  The line handed to it by the reader ends in `'\n'`
(line 53), which `int`/`float` tolerate because CPython strips surrounding
whitespace.  `int`/`float` are embedded restricted to the decimal literal
forms the stream format can carry (CPython additionally accepts exponents,
`inf`/`nan`, and underscore separators, which never round-trip through
this program's format). -/

/-- Python `str.split(sep)` for a single-character separator: split at
every occurrence; `''.split(sep) == ['']`. -/
def splitOn1 (sep : Char) : List Char → List (List Char)
  | [] => [[]]
  | c :: rest =>
    match splitOn1 sep rest with
    | [] => [[]]
    | f :: fs => if c = sep then [] :: f :: fs else (c :: f) :: fs

/-- Line 31, `line.split(',')`. -/
def splitComma (l : List Char) : List (List Char) :=
  splitOn1 ',' l

/-- Decimal digit value of a character, when it is `'0'`–`'9'`. -/
def charToDigit? (c : Char) : Option ℕ :=
  if 48 ≤ c.toNat ∧ c.toNat ≤ 57 then some (c.toNat - 48) else none

def digitsValAux : List Char → ℕ → Option ℕ
  | [], acc => some acc
  | c :: rest, acc =>
    match charToDigit? c with
    | none => none
    | some d => digitsValAux rest (acc * 10 + d)

/-- Value of a non-empty run of decimal digits, most significant first;
`none` on the empty string or any non-digit character. -/
def digitsVal (l : List Char) : Option ℕ :=
  if l = [] then none else digitsValAux l 0

/-- The whitespace characters CPython's `int`/`float` strip. -/
def isPySpace (c : Char) : Bool :=
  c == ' ' || c == '\t' || c == '\n' || c == '\r' || c == '\x0b' || c == '\x0c'

def stripWs (l : List Char) : List Char :=
  ((l.dropWhile isPySpace).reverse.dropWhile isPySpace).reverse

/-- Optional leading sign: `(isNegative, rest)`. -/
def parseSign (l : List Char) : Bool × List Char :=
  match l with
  | c :: rest =>
      if c = '-' then (true, rest)
      else if c = '+' then (false, rest)
      else (false, c :: rest)
  | [] => (false, [])

/-- The syntactic phase of `int(s)`: optional surrounding whitespace,
optional sign, non-empty digit run; yields `(isNegative, magnitude)`. -/
def pyIntParts? (s : List Char) : Option (Bool × ℕ) :=
  let t := parseSign (stripWs s)
  (digitsVal t.2).map fun n => (t.1, n)

/-- Python `int(s)` on decimal literals. -/
def pyInt? (s : List Char) : Option ℤ :=
  (pyIntParts? s).map fun p => if p.1 then -(p.2 : ℤ) else (p.2 : ℤ)

/-- The syntactic phase of `float(s)` on finite decimal literals:
optional surrounding whitespace, optional sign, then digits holding at
most one point and at least one digit (`"1."`, `".5"` are legal; `"."`,
`""` are not); yields `(isNegative, intPart, fracPart, fracDigits)`. -/
def pyFloatParts? (s : List Char) : Option (Bool × ℕ × ℕ × ℕ) :=
  let t := parseSign (stripWs s)
  match splitOn1 '.' t.2 with
  | [a] => (digitsVal a).map fun n => (t.1, n, 0, 0)
  | [a, b] =>
      if a.isEmpty && b.isEmpty then none
      else
        match (if a.isEmpty then some 0 else digitsVal a),
              (if b.isEmpty then some 0 else digitsVal b) with
        | some ip, some fr => some (t.1, ip, fr, b.length)
        | _, _ => none
  | _ => none

/-- The rational value denoted by the parts of a decimal literal. -/
def floatPartsVal (p : Bool × ℕ × ℕ × ℕ) : ℚ :=
  let v : ℚ := (p.2.1 : ℚ) + (p.2.2.1 : ℚ) / 10 ^ p.2.2.2
  if p.1 then -v else v

/-- Python `float(s)` on finite decimal literals. -/
def pyFloat? (s : List Char) : Option ℚ :=
  (pyFloatParts? s).map floatPartsVal

/-- Lines 30–32 of plot.py: split the line on `','`, unpack exactly three
fields, convert them.  Unpacking or conversion failure raises (`none`). -/
def get_data_from_line (line : List Char) : Option (ℤ × ℚ × ℚ) :=
  match splitComma line with
  | [s, x, y] =>
      match pyInt? s, pyFloat? x, pyFloat? y with
      | some c, some xv, some yv => some (c, xv, yv)
      | _, _, _ => none
  | _ => none

/-! ## Ingestion cycle (plot.py lines 37–79)

Per complete line: parse (line 54), optionally drop the saturation
sentinel (line 55), append to the per-channel temporary batch (lines
56–58) — Python list indexing `temp_xs[s]` wraps negative indexes and
raises `IndexError` out of range, which aborts the reader thread.  Then
for each modified channel, merge the batch under the channel lock (lines
65–78).  The lock acquire/retry always eventually succeeds in the
sequential embedding, so the merge phase is the pure state update. -/

/-- Python list read `l[i]`: negative indexes wrap (`l[-1]` is the last
element); out-of-range raises `IndexError` (`none`). -/
def pyGetItem (l : List α) (i : ℤ) : Option α :=
  if 0 ≤ i ∧ i < (l.length : ℤ) then l[i.toNat]?
  else if -(l.length : ℤ) ≤ i ∧ i < 0 then l[((l.length : ℤ) + i).toNat]?
  else none

/-- Python list item write `l[i] = a`, same index semantics. -/
def pySetItem (l : List α) (i : ℤ) (a : α) : Option (List α) :=
  if 0 ≤ i ∧ i < (l.length : ℤ) then some (l.set i.toNat a)
  else if -(l.length : ℤ) ≤ i ∧ i < 0 then some (l.set ((l.length : ℤ) + i).toNat a)
  else none

/-- Lines 56–57, `temp[s].append(v)`: read `temp[s]` with Python index
semantics, extend it, store it back. -/
def appendToBatch (temp : List (List ℚ)) (s : ℤ) (v : ℚ) : Option (List (List ℚ)) := do
  let cur ← pyGetItem temp s
  pySetItem temp s (cur ++ [v])

/-- Line 55: `if not ignore_saturates or y != 65535`. -/
def acceptSample (ignoreSat : Bool) (y : ℚ) : Bool :=
  !ignoreSat || decide (y ≠ 65535)

/-- Lines 53–58 for one complete line: parse it and, if accepted, append
to the per-channel batches and mark the channel modified. -/
def ingestLine (ignoreSat : Bool) (st : List (List ℚ) × List (List ℚ) × List Bool)
    (line : List Char) :
    Option (List (List ℚ) × List (List ℚ) × List Bool) := do
  let r ← get_data_from_line line
  let (s, x, y) := r
  if acceptSample ignoreSat y then do
    let tempXs ← appendToBatch st.1 s x
    let tempYs ← appendToBatch st.2.1 s y
    let sModded ← pySetItem st.2.2 s true
    pure (tempXs, tempYs, sModded)
  else
    pure st

/-- Lines 45–58: build the per-cycle temporary batches from the cycle's
complete input lines, starting from the fresh `temp_xs`/`temp_ys`/
`s_modded` of lines 45–47. -/
def batchLines (ignoreSat : Bool) (maxSources : ℕ) (lines : List (List Char)) :
    Option (List (List ℚ) × List (List ℚ) × List Bool) :=
  lines.foldlM (ingestLine ignoreSat)
    (List.replicate maxSources [], List.replicate maxSources [], List.replicate maxSources false)

/-- Lines 65–78: merge each modified channel's batch into the persistent
buffers. -/
def mergeBatches (maxDP maxSources : ℕ) (xs ys tempXs tempYs : List (List ℚ))
    (sModded : List Bool) : List (List ℚ) × List (List ℚ) :=
  (List.range maxSources).foldl
    (fun st i =>
      if sModded.getD i false then
        let m := mergePair maxDP (st.1.getD i []) (st.2.getD i [])
          (tempXs.getD i []) (tempYs.getD i [])
        (st.1.set i m.1, st.2.set i m.2)
      else st)
    (xs, ys)

/-- One full ingestion cycle (lines 41–79) over a list of complete input
lines; parse and index errors abort the cycle (`none`). -/
def ingestCycle (ignoreSat : Bool) (maxSources maxDP : ℕ) (lines : List (List Char))
    (xs ys : List (List ℚ)) : Option (List (List ℚ) × List (List ℚ)) := do
  let b ← batchLines ignoreSat maxSources lines
  pure (mergeBatches maxDP maxSources xs ys b.1 b.2.1 b.2.2)

theorem get_data_from_line_eq3 (line f0 f1 f2 : List Char)
    (h : splitComma line = [f0, f1, f2]) :
    get_data_from_line line =
      match pyInt? f0, pyFloat? f1, pyFloat? f2 with
      | some c, some xv, some yv => some (c, xv, yv)
      | _, _, _ => none := by
  unfold get_data_from_line
  rw [h]

theorem get_data_from_line_eq_none (line : List Char)
    (h : ∀ f0 f1 f2, splitComma line ≠ [f0, f1, f2]) :
    get_data_from_line line = none := by
  unfold get_data_from_line
  rcases hs : splitComma line with _ | ⟨f0, _ | ⟨f1, _ | ⟨f2, _ | ⟨f3, fs⟩⟩⟩⟩
  · rfl
  · rfl
  · rfl
  · exact absurd hs (h f0 f1 f2)
  · rfl

/-- C6. The line parser splits its one input line on the comma
delimiter and succeeds exactly when there are three fields and field 0
parses as an integer, fields 1 and 2 as floats, returning the triple
`(channel, x, y)`; it fails when the field count is not 3 or any numeric
parse fails.  (It is a pure function of the line — the embedding has no
state for it to touch, matching the source, which only calls `split`,
`int` and `float`.) -/
theorem get_data_from_line_contract (line : List Char) :
    ((get_data_from_line line).isSome ↔
      ∃ f0 f1 f2, splitComma line = [f0, f1, f2] ∧
        (pyInt? f0).isSome ∧ (pyFloat? f1).isSome ∧ (pyFloat? f2).isSome) ∧
    (∀ f0 f1 f2 c x y, splitComma line = [f0, f1, f2] →
      pyInt? f0 = some c → pyFloat? f1 = some x → pyFloat? f2 = some y →
      get_data_from_line line = some (c, x, y)) := by
  have harm : ∀ f0 f1 f2 c x y, splitComma line = [f0, f1, f2] →
      pyInt? f0 = some c → pyFloat? f1 = some x → pyFloat? f2 = some y →
      get_data_from_line line = some (c, x, y) := by
    intro f0 f1 f2 c x y hs hc hx hy
    rw [get_data_from_line_eq3 line f0 f1 f2 hs, hc, hx, hy]
  refine ⟨⟨?_, ?_⟩, harm⟩
  · intro h
    rcases hs : splitComma line with _ | ⟨f0, _ | ⟨f1, _ | ⟨f2, _ | ⟨f3, fs⟩⟩⟩⟩
    · rw [get_data_from_line_eq_none line (by rw [hs]; intro _ _ _ h; exact absurd h (by simp))] at h
      exact absurd h (by simp)
    · rw [get_data_from_line_eq_none line (by rw [hs]; intro _ _ _ h; exact absurd h (by simp))] at h
      exact absurd h (by simp)
    · rw [get_data_from_line_eq_none line (by rw [hs]; intro _ _ _ h; exact absurd h (by simp))] at h
      exact absurd h (by simp)
    · refine ⟨f0, f1, f2, rfl, ?_⟩
      rw [get_data_from_line_eq3 line f0 f1 f2 hs] at h
      rcases h0 : pyInt? f0 with _ | c
      · rw [h0] at h; exact absurd h (by simp)
      rcases h1 : pyFloat? f1 with _ | xv
      · rw [h0, h1] at h; exact absurd h (by simp)
      rcases h2 : pyFloat? f2 with _ | yv
      · rw [h0, h1, h2] at h; exact absurd h (by simp)
      exact ⟨by simp [h0], by simp [h1], by simp [h2]⟩
    · rw [get_data_from_line_eq_none line (by rw [hs]; intro _ _ _ h; exact absurd h (by simp))] at h
      exact absurd h (by simp)
  · rintro ⟨f0, f1, f2, hs, h0, h1, h2⟩
    rcases Option.isSome_iff_exists.mp h0 with ⟨c, hc⟩
    rcases Option.isSome_iff_exists.mp h1 with ⟨x, hx⟩
    rcases Option.isSome_iff_exists.mp h2 with ⟨y, hy⟩
    rw [harm f0 f1 f2 c x y hs hc hx hy]
    rfl

/-- C10. Ingestion indexes the per-channel batch lists with the
parsed channel index with Python semantics and no range check: for
`0 ≤ s < max_sources` the append lands on channel `s`; for
`s ≥ max_sources` it raises `IndexError` (aborting the reader thread);
for `-max_sources ≤ s < 0` it is silently appended to channel
`max_sources + s`. -/
theorem channel_index_contract (maxSources : ℕ) (temp : List (List ℚ))
    (hlen : temp.length = maxSources) (s : ℤ) (v : ℚ) :
    (0 ≤ s → s < (maxSources : ℤ) →
      appendToBatch temp s v =
        some (temp.set s.toNat (temp.getD s.toNat [] ++ [v]))) ∧
    ((maxSources : ℤ) ≤ s → appendToBatch temp s v = none) ∧
    (-(maxSources : ℤ) ≤ s → s < 0 →
      appendToBatch temp s v =
        some (temp.set ((maxSources : ℤ) + s).toNat
          (temp.getD ((maxSources : ℤ) + s).toNat [] ++ [v]))) := by
  subst hlen
  refine ⟨?_, ?_, ?_⟩
  · intro h0 h1
    have hlt : s.toNat < temp.length := by omega
    simp only [appendToBatch, pyGetItem, pySetItem, Option.bind_eq_bind]
    rw [if_pos ⟨h0, h1⟩, List.getElem?_eq_getElem hlt, Option.some_bind,
      if_pos ⟨h0, h1⟩, List.getD_eq_getElem temp [] hlt]
  · intro h
    simp only [appendToBatch, pyGetItem, pySetItem, Option.bind_eq_bind]
    rw [if_neg (by omega), if_neg (by omega)]
    rfl
  · intro h0 h1
    have hlt : ((temp.length : ℤ) + s).toNat < temp.length := by omega
    simp only [appendToBatch, pyGetItem, pySetItem, Option.bind_eq_bind]
    rw [if_neg (by omega), if_pos ⟨h0, h1⟩, List.getElem?_eq_getElem hlt, Option.some_bind,
      if_neg (by omega), if_pos ⟨h0, h1⟩, List.getD_eq_getElem temp [] hlt]

/-- Witness for C10: two channels; channel index `2` raises, channel
index `-1` silently lands on channel `2 + (-1) = 1`. -/
theorem channel_index_contract_witness :
    appendToBatch [[], []] 2 5 = none ∧
    appendToBatch [[], []] (-1) 5 = some [[], [(5 : ℚ)]] := by
  constructor
  · exact (channel_index_contract 2 [[], []] rfl 2 5).2.1 (by norm_num)
  · rw [(channel_index_contract 2 [[], []] rfl (-1) 5).2.2 (by norm_num) (by norm_num)]
    rfl

/-! ### Concrete evaluations of the parser and ingestion cycle -/

theorem evalInt0 : pyInt? ['0'] = some 0 := by
  have h : pyIntParts? ['0'] = some (false, 0) := by decide
  simp [pyInt?, h]

theorem evalInt1 : pyInt? ['1'] = some 1 := by
  have h : pyIntParts? ['1'] = some (false, 1) := by decide
  simp [pyInt?, h]

theorem evalF10 : pyFloat? ['1', '.', '0'] = some 1 := by
  have h : pyFloatParts? ['1', '.', '0'] = some (false, 1, 0, 1) := by decide
  simp [pyFloat?, h, floatPartsVal]

theorem evalF20 : pyFloat? ['2', '.', '0'] = some 2 := by
  have h : pyFloatParts? ['2', '.', '0'] = some (false, 2, 0, 1) := by decide
  simp [pyFloat?, h, floatPartsVal]

theorem evalF30 : pyFloat? ['3', '.', '0'] = some 3 := by
  have h : pyFloatParts? ['3', '.', '0'] = some (false, 3, 0, 1) := by decide
  simp [pyFloat?, h, floatPartsVal]

theorem evalFy10 : pyFloat? ['1', '0', '\n'] = some 10 := by
  have h : pyFloatParts? ['1', '0', '\n'] = some (false, 10, 0, 0) := by decide
  simp [pyFloat?, h, floatPartsVal]

theorem evalFy20 : pyFloat? ['2', '0', '\n'] = some 20 := by
  have h : pyFloatParts? ['2', '0', '\n'] = some (false, 20, 0, 0) := by decide
  simp [pyFloat?, h, floatPartsVal]

theorem evalFy30 : pyFloat? ['3', '0', '\n'] = some 30 := by
  have h : pyFloatParts? ['3', '0', '\n'] = some (false, 30, 0, 0) := by decide
  simp [pyFloat?, h, floatPartsVal]

theorem evalFy5 : pyFloat? ['5', '\n'] = some 5 := by
  have h : pyFloatParts? ['5', '\n'] = some (false, 5, 0, 0) := by decide
  simp [pyFloat?, h, floatPartsVal]

theorem evalFySat : pyFloat? ['6', '5', '5', '3', '5', '\n'] = some 65535 := by
  have h : pyFloatParts? ['6', '5', '5', '3', '5', '\n'] = some (false, 65535, 0, 0) := by
    decide
  simp [pyFloat?, h, floatPartsVal]

theorem parseLineA : get_data_from_line ['0', ',', '1', '.', '0', ',', '1', '0', '\n'] =
    some (0, 1, 10) := by
  rw [get_data_from_line_eq3 _ ['0'] ['1', '.', '0'] ['1', '0', '\n'] (by decide),
    evalInt0, evalF10, evalFy10]

theorem parseLineB : get_data_from_line ['0', ',', '2', '.', '0', ',', '2', '0', '\n'] =
    some (0, 2, 20) := by
  rw [get_data_from_line_eq3 _ ['0'] ['2', '.', '0'] ['2', '0', '\n'] (by decide),
    evalInt0, evalF20, evalFy20]

theorem parseLineC : get_data_from_line ['1', ',', '1', '.', '0', ',', '5', '\n'] =
    some (1, 1, 5) := by
  rw [get_data_from_line_eq3 _ ['1'] ['1', '.', '0'] ['5', '\n'] (by decide),
    evalInt1, evalF10, evalFy5]

theorem parseLineD : get_data_from_line ['0', ',', '3', '.', '0', ',', '3', '0', '\n'] =
    some (0, 3, 30) := by
  rw [get_data_from_line_eq3 _ ['0'] ['3', '.', '0'] ['3', '0', '\n'] (by decide),
    evalInt0, evalF30, evalFy30]

theorem parseLineSat :
    get_data_from_line ['0', ',', '1', '.', '0', ',', '6', '5', '5', '3', '5', '\n'] =
      some (0, 1, 65535) := by
  rw [get_data_from_line_eq3 _ ['0'] ['1', '.', '0'] ['6', '5', '5', '3', '5', '\n']
    (by decide), evalInt0, evalF10, evalFySat]

theorem batchLines_abc : batchLines true 2
    [['0', ',', '1', '.', '0', ',', '1', '0', '\n'],
     ['0', ',', '2', '.', '0', ',', '2', '0', '\n'],
     ['1', ',', '1', '.', '0', ',', '5', '\n']] =
    some ([[1, 2], [1]], [[10, 20], [5]], [true, true]) := by
  simp +decide only [batchLines, List.foldlM_cons, List.foldlM_nil, ingestLine,
    parseLineA, parseLineB, parseLineC, acceptSample, appendToBatch, pyGetItem, pySetItem,
    Option.bind_eq_bind, Option.some_bind, List.replicate, List.length_cons,
    List.length_nil, List.getElem?_cons_zero, List.getElem?_cons_succ,
    List.set_cons_zero, List.set_cons_succ, List.nil_append, List.cons_append,
    Option.pure_def]

theorem cycle_abc : ingestCycle true 2 2
    [['0', ',', '1', '.', '0', ',', '1', '0', '\n'],
     ['0', ',', '2', '.', '0', ',', '2', '0', '\n'],
     ['1', ',', '1', '.', '0', ',', '5', '\n']]
    (List.replicate 2 []) (List.replicate 2 []) =
    some ([[1, 2], [1]], [[10, 20], [5]]) := by
  simp +decide only [ingestCycle, batchLines_abc, Option.bind_eq_bind, Option.some_bind,
    mergeBatches, List.range_succ, List.foldl_cons, List.foldl_nil, List.foldl_append,
    mergePair, pyTail, List.replicate, List.getD, List.getElem?_cons_zero,
    List.getElem?_cons_succ, Option.getD_some, List.length_cons, List.length_nil,
    List.set_cons_zero, List.set_cons_succ, List.nil_append, List.cons_append,
    Option.pure_def]

theorem batchLines_d : batchLines true 2 [['0', ',', '3', '.', '0', ',', '3', '0', '\n']] =
    some ([[3], []], [[30], []], [true, false]) := by
  simp +decide only [batchLines, List.foldlM_cons, List.foldlM_nil, ingestLine,
    parseLineD, acceptSample, appendToBatch, pyGetItem, pySetItem,
    Option.bind_eq_bind, Option.some_bind, List.replicate, List.length_cons,
    List.length_nil, List.getElem?_cons_zero, List.getElem?_cons_succ,
    List.set_cons_zero, List.set_cons_succ, List.nil_append, List.cons_append,
    Option.pure_def]

theorem cycle_d : ingestCycle true 2 2 [['0', ',', '3', '.', '0', ',', '3', '0', '\n']]
    [[1, 2], [1]] [[10, 20], [5]] = some ([[2, 3], [1]], [[20, 30], [5]]) := by
  simp +decide only [ingestCycle, batchLines_d, Option.bind_eq_bind, Option.some_bind,
    mergeBatches, List.range_succ, List.foldl_cons, List.foldl_nil, List.foldl_append,
    mergePair, pyTail, List.replicate, List.getD, List.getElem?_cons_zero,
    List.getElem?_cons_succ, Option.getD_some, List.length_cons, List.length_nil,
    List.set_cons_zero, List.set_cons_succ, List.nil_append, List.cons_append,
    Option.pure_def]

/-- C5. With `max_data_points = 2` and `max_sources = 2`, ingesting
`"0,1.0,10\n"`, `"0,2.0,20\n"`, `"1,1.0,5\n"` yields channel 0's buffer
`[(1.0,10),(2.0,20)]` and channel 1's `[(1.0,5)]`; a further cycle
ingesting `"0,3.0,30\n"` evicts `(1.0,10)`, leaving channel 0 at
`[(2.0,20),(3.0,30)]` and channel 1 unchanged.  (Buffers are the parallel
`xs`/`ys` lists; the zip equations exhibit them as the claimed sample
pairs.) -/
theorem end_to_end_scenario :
    ingestCycle true 2 2 ["0,1.0,10\n".data, "0,2.0,20\n".data, "1,1.0,5\n".data]
        (List.replicate 2 []) (List.replicate 2 []) =
      some ([[1, 2], [1]], [[10, 20], [5]]) ∧
    ([(1 : ℚ), 2].zip [(10 : ℚ), 20] = [(1, 10), (2, 20)] ∧
     [(1 : ℚ)].zip [(5 : ℚ)] = [(1, 5)]) ∧
    ingestCycle true 2 2 ["0,3.0,30\n".data] [[1, 2], [1]] [[10, 20], [5]] =
      some ([[2, 3], [1]], [[20, 30], [5]]) ∧
    [(2 : ℚ), 3].zip [(20 : ℚ), 30] = [(2, 20), (3, 30)] := by
  refine ⟨?_, ⟨rfl, rfl⟩, ?_, rfl⟩
  · rw [show "0,1.0,10\n".data = ['0', ',', '1', '.', '0', ',', '1', '0', '\n'] from rfl,
      show "0,2.0,20\n".data = ['0', ',', '2', '.', '0', ',', '2', '0', '\n'] from rfl,
      show "1,1.0,5\n".data = ['1', ',', '1', '.', '0', ',', '5', '\n'] from rfl]
    exact cycle_abc
  · rw [show "0,3.0,30\n".data = ['0', ',', '3', '.', '0', ',', '3', '0', '\n'] from rfl]
    exact cycle_d

theorem getD_replicate_default (n : ℕ) (a : Bool) : ∀ i : ℕ,
    (List.replicate n a).getD i a = a := by
  induction n with
  | zero => intro i; rfl
  | succ m ih =>
      intro i
      cases i with
      | zero => rfl
      | succ j => exact ih j

theorem mergeBatches_not_modded (maxDP maxSources : ℕ)
    (xs ys tXs tYs : List (List ℚ)) (sModded : List Bool)
    (h : ∀ i, sModded.getD i false = false) :
    mergeBatches maxDP maxSources xs ys tXs tYs sModded = (xs, ys) := by
  unfold mergeBatches
  have H : ∀ (L : List ℕ) (st : List (List ℚ) × List (List ℚ)),
      L.foldl (fun st i =>
        if sModded.getD i false then
          let m := mergePair maxDP (st.1.getD i []) (st.2.getD i [])
            (tXs.getD i []) (tYs.getD i [])
          (st.1.set i m.1, st.2.set i m.2)
        else st) st = st := by
    intro L
    induction L with
    | nil => intro st; rfl
    | cons i L ih =>
        intro st
        simp only [List.foldl_cons, h i, if_false]
        exact ih st
  exact H _ _

theorem acceptSat : acceptSample true 65535 = false := by
  simp [acceptSample]

theorem batchLines_sat :
    batchLines true 8 [['0', ',', '1', '.', '0', ',', '6', '5', '5', '3', '5', '\n']] =
      some (List.replicate 8 [], List.replicate 8 [], List.replicate 8 false) := by
  simp +decide only [batchLines, List.foldlM_cons, List.foldlM_nil, ingestLine,
    parseLineSat, acceptSat, Option.bind_eq_bind, Option.some_bind, Option.pure_def,
    Bool.false_eq_true, if_false]

/-- C8. With `ignore_saturates` enabled (the source hard-codes it
`True`), a parsed sample is accepted into the per-cycle batch exactly
when its y value differs from the sentinel `65535`; ingesting the line
`"0,1.0,65535\n"` leaves every buffer — in particular channel 0's —
empty. -/
theorem saturate_filtered :
    (∀ y : ℚ, acceptSample true y = true ↔ y ≠ 65535) ∧
    ingestCycle true 8 2000 ["0,1.0,65535\n".data]
        (List.replicate 8 []) (List.replicate 8 []) =
      some (List.replicate 8 [], List.replicate 8 []) := by
  constructor
  · intro y
    simp [acceptSample]
  · rw [show "0,1.0,65535\n".data =
      ['0', ',', '1', '.', '0', ',', '6', '5', '5', '3', '5', '\n'] from rfl]
    simp only [ingestCycle, batchLines_sat, Option.bind_eq_bind, Option.some_bind,
      Option.pure_def]
    rw [mergeBatches_not_modded 2000 8 _ _ _ _ _ (getD_replicate_default 8 false)]

/-- Witness for C6: the contract applied to the line `"0,1.0,10\n"`,
discharging its hypotheses at the concrete fields. -/
theorem get_data_from_line_contract_witness :
    get_data_from_line ['0', ',', '1', '.', '0', ',', '1', '0', '\n'] = some (0, 1, 10) :=
  (get_data_from_line_contract ['0', ',', '1', '.', '0', ',', '1', '0', '\n']).2
    ['0'] ['1', '.', '0'] ['1', '0', '\n'] 0 1 10 (by decide) evalInt0 evalF10 evalFy10

/-! ## Record formatting (the inverse direction of the stream format)

The stream format of §6 of the spec is `"<channel:int>,<x:float>,<y:float>"`.
A finite-decimal float value is `m / 10^k` for an integer `m` and a digit
count `k`; `formatFixed` prints it in fixed-point notation, and
`formatRecord` builds the full line, so that `parse ∘ format = id` can be
stated for every record. -/

/-- The character of a decimal digit. -/
def digitChar (d : ℕ) : Char := Char.ofNat (48 + d)

/-- Decimal digit string of a natural number, most significant first. -/
def natToDec (n : ℕ) : List Char :=
  if n = 0 then ['0'] else (Nat.digits 10 n).reverse.map digitChar

/-- Decimal string of an integer. -/
def intToDec (m : ℤ) : List Char :=
  (if m < 0 then ['-'] else []) ++ natToDec m.natAbs

/-- Exactly `k` fractional digits for the value `r < 10^k`: leading
zeros, then the digits of `r`. -/
def padFrac (k r : ℕ) : List Char :=
  List.replicate (k - (natToDec r).length) '0' ++ natToDec r

/-- Fixed-point decimal string of `m / 10^k`, with `k` fractional digits
when `k > 0` and plain integer notation when `k = 0`. -/
def formatFixed (m : ℤ) (k : ℕ) : List Char :=
  (if m < 0 then ['-'] else []) ++
  (if k = 0 then natToDec m.natAbs
   else natToDec (m.natAbs / 10 ^ k) ++ '.' :: padFrac k (m.natAbs % 10 ^ k))

/-- The record `(c, mx/10^kx, my/10^ky)` rendered as the stream line
`"c,x,y"`. -/
def formatRecord (c mx : ℤ) (kx : ℕ) (my : ℤ) (ky : ℕ) : List Char :=
  intToDec c ++ ',' :: (formatFixed mx kx ++ ',' :: formatFixed my ky)

theorem charToDigit?_digitChar {d : ℕ} (hd : d < 10) :
    charToDigit? (digitChar d) = some d := by
  interval_cases d <;> decide

theorem toNat_digitChar {d : ℕ} (hd : d < 10) :
    (digitChar d).toNat = 48 + d := by
  interval_cases d <;> decide

theorem natToDec_ne_nil (n : ℕ) : natToDec n ≠ [] := by
  unfold natToDec
  by_cases h : n = 0
  · simp [h]
  · simp only [h, if_false]
    intro hcon
    have := Nat.digits_ne_nil_iff_ne_zero (b := 10).mpr h
    simp only [List.map_eq_nil_iff, List.reverse_eq_nil_iff] at hcon
    exact this hcon

theorem natToDec_chars (n : ℕ) :
    ∀ c ∈ natToDec n, 48 ≤ c.toNat ∧ c.toNat ≤ 57 := by
  intro c hc
  unfold natToDec at hc
  by_cases h : n = 0
  · simp only [h, if_true] at hc
    rcases List.mem_singleton.mp hc with rfl
    constructor <;> decide
  · simp only [h, if_false, List.mem_map] at hc
    rcases hc with ⟨d, hd, rfl⟩
    have hdlt : d < 10 := Nat.digits_lt_base (by norm_num) (List.mem_reverse.mp hd)
    rw [toNat_digitChar hdlt]
    omega

theorem digit_not_space {c : Char} (h48 : 48 ≤ c.toNat) (h57 : c.toNat ≤ 57) :
    isPySpace c = false := by
  unfold isPySpace
  have he : ∀ a : Char, c.toNat ≠ a.toNat → (c == a) = false := by
    intro a hne
    rw [beq_eq_false_iff_ne]
    intro hcon
    exact hne (hcon ▸ rfl)
  rw [he ' ' (by intro hcon; rw [show (' ').toNat = 32 from rfl] at hcon; omega),
    he '\t' (by intro hcon; rw [show ('\t').toNat = 9 from rfl] at hcon; omega),
    he '\n' (by intro hcon; rw [show ('\n').toNat = 10 from rfl] at hcon; omega),
    he '\r' (by intro hcon; rw [show ('\r').toNat = 13 from rfl] at hcon; omega),
    he '\x0b' (by intro hcon; rw [show ('\x0b').toNat = 11 from rfl] at hcon; omega),
    he '\x0c' (by intro hcon; rw [show ('\x0c').toNat = 12 from rfl] at hcon; omega)]
  rfl

theorem digit_ne_comma {c : Char} (h48 : 48 ≤ c.toNat) : c ≠ ',' := by
  intro hcon
  rw [hcon, show (',').toNat = 44 from rfl] at h48
  omega

theorem digit_ne_dot {c : Char} (h48 : 48 ≤ c.toNat) : c ≠ '.' := by
  intro hcon
  rw [hcon, show ('.').toNat = 46 from rfl] at h48
  omega

theorem dropWhile_eq_self_of_false (p : Char → Bool) (l : List Char)
    (h : ∀ c ∈ l, p c = false) : l.dropWhile p = l := by
  cases l with
  | nil => rfl
  | cons c t =>
      rw [List.dropWhile_cons, h c (List.mem_cons_self c t)]
      rfl

theorem stripWs_eq_self (l : List Char) (h : ∀ c ∈ l, isPySpace c = false) :
    stripWs l = l := by
  unfold stripWs
  rw [dropWhile_eq_self_of_false _ _ h,
    dropWhile_eq_self_of_false _ _ (fun c hc => h c (List.mem_reverse.mp hc)),
    List.reverse_reverse]

theorem splitOn1_ne_nil (sep : Char) (l : List Char) : splitOn1 sep l ≠ [] := by
  cases l with
  | nil => simp [splitOn1]
  | cons c t =>
      unfold splitOn1
      rcases h : splitOn1 sep t with _ | ⟨f, fs⟩
      · simp
      · by_cases hc : c = sep <;> simp [hc]

theorem splitOn1_cons (sep c : Char) (rest : List Char) :
    splitOn1 sep (c :: rest) =
      match splitOn1 sep rest with
      | [] => [[]]
      | f :: fs => if c = sep then [] :: f :: fs else (c :: f) :: fs := rfl

theorem splitOn1_sepfree (sep : Char) (l : List Char) (h : ∀ c ∈ l, c ≠ sep) :
    splitOn1 sep l = [l] := by
  induction l with
  | nil => rfl
  | cons c t ih =>
      rw [splitOn1_cons, ih (fun x hx => h x (List.mem_cons_of_mem c hx))]
      dsimp only
      rw [if_neg (h c (List.mem_cons_self c t))]

theorem splitOn1_append (sep : Char) (a b : List Char) (h : ∀ c ∈ a, c ≠ sep) :
    splitOn1 sep (a ++ sep :: b) = a :: splitOn1 sep b := by
  induction a with
  | nil =>
      show splitOn1 sep (sep :: b) = [] :: splitOn1 sep b
      rcases hb : splitOn1 sep b with _ | ⟨f, fs⟩
      · exact absurd hb (splitOn1_ne_nil sep b)
      · rw [splitOn1_cons, hb]
        dsimp only
        rw [if_pos rfl]
  | cons c a' ih =>
      show splitOn1 sep (c :: (a' ++ sep :: b)) = (c :: a') :: splitOn1 sep b
      rw [splitOn1_cons, ih (fun x hx => h x (List.mem_cons_of_mem c hx))]
      dsimp only
      rw [if_neg (h c (List.mem_cons_self c a'))]

theorem foldr_digits_eq_ofDigits (l : List ℕ) :
    l.foldr (fun d a => a * 10 + d) 0 = Nat.ofDigits 10 l := by
  induction l with
  | nil => rfl
  | cons d t ih =>
      simp only [List.foldr_cons, ih, Nat.ofDigits_cons]
      omega

theorem digitsValAux_map (ds : List ℕ) (h : ∀ d ∈ ds, d < 10) :
    ∀ acc : ℕ, digitsValAux (ds.map digitChar) acc =
      some (ds.foldl (fun a d => a * 10 + d) acc) := by
  induction ds with
  | nil => intro acc; rfl
  | cons d t ih =>
      intro acc
      have hd : d < 10 := h d (List.mem_cons_self d t)
      show digitsValAux (digitChar d :: t.map digitChar) acc = _
      unfold digitsValAux
      rw [charToDigit?_digitChar hd]
      exact ih (fun x hx => h x (List.mem_cons_of_mem d hx)) (acc * 10 + d)

theorem digitsVal_natToDec (n : ℕ) : digitsVal (natToDec n) = some n := by
  by_cases h : n = 0
  · subst h; decide
  · unfold digitsVal
    rw [if_neg (natToDec_ne_nil n)]
    unfold natToDec
    rw [if_neg h]
    rw [digitsValAux_map _ (fun d hd =>
      Nat.digits_lt_base (by norm_num) (List.mem_reverse.mp hd)) 0]
    rw [List.foldl_reverse, foldr_digits_eq_ofDigits, Nat.ofDigits_digits]

theorem digitsValAux_cons (c : Char) (rest : List Char) (acc : ℕ) :
    digitsValAux (c :: rest) acc =
      match charToDigit? c with
      | none => none
      | some d => digitsValAux rest (acc * 10 + d) := rfl

theorem digitsValAux_zeros (k : ℕ) (rest : List Char) :
    digitsValAux (List.replicate k '0' ++ rest) 0 = digitsValAux rest 0 := by
  induction k with
  | zero => rfl
  | succ j ih =>
      rw [List.replicate_succ, List.cons_append, digitsValAux_cons,
        show charToDigit? '0' = some 0 from rfl]
      dsimp only
      rw [show 0 * 10 + 0 = 0 from rfl]
      exact ih

theorem length_natToDec_le {r k : ℕ} (hk : 1 ≤ k) (hr : r < 10 ^ k) :
    (natToDec r).length ≤ k := by
  unfold natToDec
  by_cases h : r = 0
  · simp [h]
    omega
  · rw [if_neg h]
    rw [List.length_map, List.length_reverse]
    rw [Nat.digits_len 10 r (by norm_num) h]
    have := (Nat.lt_pow_iff_log_lt (by norm_num) h).mp hr
    omega

theorem digitsVal_padFrac {k r : ℕ} (hk : 1 ≤ k) (hr : r < 10 ^ k) :
    digitsVal (padFrac k r) = some r ∧ (padFrac k r).length = k := by
  constructor
  · unfold digitsVal padFrac
    rw [if_neg (by
      intro hcon
      exact natToDec_ne_nil r (List.append_eq_nil.mp hcon).2)]
    rw [digitsValAux_zeros]
    have := digitsVal_natToDec r
    unfold digitsVal at this
    rw [if_neg (natToDec_ne_nil r)] at this
    exact this
  · unfold padFrac
    rw [List.length_append, List.length_replicate]
    have := length_natToDec_le hk hr
    omega

theorem parseSign_cons (c : Char) (rest : List Char) :
    parseSign (c :: rest) =
      if c = '-' then (true, rest)
      else if c = '+' then (false, rest)
      else (false, c :: rest) := rfl

theorem parseSign_digit {c : Char} (t : List Char) (h48 : 48 ≤ c.toNat) :
    parseSign (c :: t) = (false, c :: t) := by
  rw [parseSign_cons,
    if_neg (by
      intro hcon
      rw [hcon, show ('-').toNat = 45 from rfl] at h48
      omega),
    if_neg (by
      intro hcon
      rw [hcon, show ('+').toNat = 43 from rfl] at h48
      omega)]

theorem parseSign_neg (t : List Char) : parseSign ('-' :: t) = (true, t) := by
  rw [parseSign_cons, if_pos rfl]

theorem stripWs_natToDec (n : ℕ) : stripWs (natToDec n) = natToDec n :=
  stripWs_eq_self _ fun c hc =>
    digit_not_space (natToDec_chars n c hc).1 (natToDec_chars n c hc).2

theorem pyIntParts?_build {s u : List Char} {neg : Bool} {n : ℕ}
    (h1 : parseSign (stripWs s) = (neg, u)) (h2 : digitsVal u = some n) :
    pyIntParts? s = some (neg, n) := by
  simp only [pyIntParts?, h1, h2]
  rfl

theorem pyInt?_build {s : List Char} {neg : Bool} {n : ℕ}
    (h : pyIntParts? s = some (neg, n)) :
    pyInt? s = some (if neg then -(n : ℤ) else (n : ℤ)) := by
  simp only [pyInt?, h]
  rfl

/-- Round trip: `int` parses back exactly the integers `intToDec` prints. -/
theorem pyInt?_intToDec (m : ℤ) : pyInt? (intToDec m) = some m := by
  obtain ⟨c, t, hct⟩ : ∃ c t, natToDec m.natAbs = c :: t := by
    rcases hl : natToDec m.natAbs with _ | ⟨c, t⟩
    · exact absurd hl (natToDec_ne_nil m.natAbs)
    · exact ⟨c, t, rfl⟩
  have hc48 : 48 ≤ c.toNat :=
    (natToDec_chars m.natAbs c (hct ▸ List.mem_cons_self c t)).1
  unfold intToDec
  by_cases hm : m < 0
  · rw [if_pos hm]
    have hstrip : stripWs ('-' :: natToDec m.natAbs) = '-' :: natToDec m.natAbs := by
      apply stripWs_eq_self
      intro x hx
      rcases List.mem_cons.mp hx with rfl | hx'
      · decide
      · exact digit_not_space (natToDec_chars m.natAbs x hx').1
          (natToDec_chars m.natAbs x hx').2
    have hparts : pyIntParts? (['-'] ++ natToDec m.natAbs) = some (true, m.natAbs) :=
      pyIntParts?_build (by rw [List.singleton_append, hstrip, parseSign_neg])
        (digitsVal_natToDec m.natAbs)
    rw [pyInt?_build hparts, if_pos rfl]
    congr 1
    omega
  · rw [if_neg hm]
    have hparts : pyIntParts? ([] ++ natToDec m.natAbs) = some (false, m.natAbs) :=
      pyIntParts?_build (by rw [List.nil_append, stripWs_natToDec, hct,
        parseSign_digit t hc48]) (digitsVal_natToDec m.natAbs)
    rw [pyInt?_build hparts, if_neg (by simp)]
    congr 1
    omega

theorem padFrac_chars (k r : ℕ) :
    ∀ c ∈ padFrac k r, 48 ≤ c.toNat ∧ c.toNat ≤ 57 := by
  intro c hc
  rcases List.mem_append.mp hc with hc' | hc'
  · rcases List.eq_of_mem_replicate hc' with rfl
    exact ⟨by decide, by decide⟩
  · exact natToDec_chars r c hc'

theorem pyFloatParts?_nodot {s u a : List Char} {neg : Bool} {n : ℕ}
    (h1 : parseSign (stripWs s) = (neg, u)) (h2 : splitOn1 '.' u = [a])
    (h3 : digitsVal a = some n) :
    pyFloatParts? s = some (neg, n, 0, 0) := by
  simp only [pyFloatParts?, h1, h2, h3]
  rfl

theorem pyFloatParts?_dot {s u a b : List Char} {neg : Bool} {ip fr : ℕ}
    (h1 : parseSign (stripWs s) = (neg, u)) (h2 : splitOn1 '.' u = [a, b])
    (hA : digitsVal a = some ip) (hB : digitsVal b = some fr) :
    pyFloatParts? s = some (neg, ip, fr, b.length) := by
  have ha : a.isEmpty = false := by
    rw [List.isEmpty_eq_false]
    intro hcon
    rw [hcon] at hA
    simp [digitsVal] at hA
  have hb : b.isEmpty = false := by
    rw [List.isEmpty_eq_false]
    intro hcon
    rw [hcon] at hB
    simp [digitsVal] at hB
  simp only [pyFloatParts?, h1, h2, ha, hb, Bool.and_self, Bool.false_eq_true,
    if_false, Bool.false_and, hA, hB]

theorem pyFloat?_build {s : List Char} {p : Bool × ℕ × ℕ × ℕ}
    (h : pyFloatParts? s = some p) : pyFloat? s = some (floatPartsVal p) := by
  simp only [pyFloat?, h]
  rfl

theorem decimal_value_eq (n k : ℕ) :
    ((n / 10 ^ k : ℕ) : ℚ) + ((n % 10 ^ k : ℕ) : ℚ) / 10 ^ k = (n : ℚ) / 10 ^ k := by
  have hq : ((10 : ℚ) ^ k) ≠ 0 := by positivity
  rw [eq_div_iff hq, add_mul, div_mul_cancel₀ _ hq]
  exact_mod_cast Nat.div_add_mod' n (10 ^ k)

/-- Round trip: `float` parses back the integer strings `intToDec` prints. -/
theorem pyFloat?_intToDec (m : ℤ) : pyFloat? (intToDec m) = some ((m : ℚ)) := by
  obtain ⟨c, t, hct⟩ : ∃ c t, natToDec m.natAbs = c :: t := by
    rcases hl : natToDec m.natAbs with _ | ⟨c, t⟩
    · exact absurd hl (natToDec_ne_nil m.natAbs)
    · exact ⟨c, t, rfl⟩
  have hc48 : 48 ≤ c.toNat :=
    (natToDec_chars m.natAbs c (hct ▸ List.mem_cons_self c t)).1
  have hnodot : splitOn1 '.' (natToDec m.natAbs) = [natToDec m.natAbs] :=
    splitOn1_sepfree '.' _ fun x hx => digit_ne_dot (natToDec_chars m.natAbs x hx).1
  unfold intToDec
  by_cases hm : m < 0
  · rw [if_pos hm]
    have hstrip : stripWs ('-' :: natToDec m.natAbs) = '-' :: natToDec m.natAbs := by
      apply stripWs_eq_self
      intro x hx
      rcases List.mem_cons.mp hx with rfl | hx'
      · decide
      · exact digit_not_space (natToDec_chars m.natAbs x hx').1
          (natToDec_chars m.natAbs x hx').2
    have hparts : pyFloatParts? (['-'] ++ natToDec m.natAbs) =
        some (true, m.natAbs, 0, 0) :=
      pyFloatParts?_nodot (by rw [List.singleton_append, hstrip, parseSign_neg])
        hnodot (digitsVal_natToDec m.natAbs)
    rw [pyFloat?_build hparts]
    have habs : ((m.natAbs : ℚ)) = -(m : ℚ) := by
      rw [Int.cast_natAbs, abs_of_neg hm]
      push_cast
      ring
    congr 1
    unfold floatPartsVal
    norm_num [habs]
  · rw [if_neg hm]
    have hparts : pyFloatParts? ([] ++ natToDec m.natAbs) =
        some (false, m.natAbs, 0, 0) :=
      pyFloatParts?_nodot (by rw [List.nil_append, stripWs_natToDec, hct,
        parseSign_digit t hc48]) hnodot (digitsVal_natToDec m.natAbs)
    rw [pyFloat?_build hparts]
    have habs : ((m.natAbs : ℚ)) = (m : ℚ) := by
      rw [Int.cast_natAbs, abs_of_nonneg (not_lt.mp hm)]
    congr 1
    unfold floatPartsVal
    norm_num [habs]

/-- Round trip: `float` parses back the fixed-point decimals `formatFixed`
prints — the left-inverse law for a single field. -/
theorem pyFloat?_formatFixed (m : ℤ) (k : ℕ) :
    pyFloat? (formatFixed m k) = some ((m : ℚ) / 10 ^ k) := by
  by_cases hk : k = 0
  · subst hk
    have hff : formatFixed m 0 = intToDec m := by
      unfold formatFixed intToDec
      rw [if_pos rfl]
    rw [hff, pyFloat?_intToDec]
    norm_num
  · have hk1 : 1 ≤ k := Nat.one_le_iff_ne_zero.mpr hk
    have hr : m.natAbs % 10 ^ k < 10 ^ k :=
      Nat.mod_lt _ (pow_pos (by norm_num) k)
    have hpad := digitsVal_padFrac hk1 hr
    obtain ⟨c, t, hct⟩ : ∃ c t, natToDec (m.natAbs / 10 ^ k) = c :: t := by
      rcases hl : natToDec (m.natAbs / 10 ^ k) with _ | ⟨c, t⟩
      · exact absurd hl (natToDec_ne_nil _)
      · exact ⟨c, t, rfl⟩
    have hc48 : 48 ≤ c.toNat :=
      (natToDec_chars _ c (hct ▸ List.mem_cons_self c t)).1
    have hbodychars : ∀ x ∈ natToDec (m.natAbs / 10 ^ k) ++
        '.' :: padFrac k (m.natAbs % 10 ^ k), isPySpace x = false := by
      intro x hx
      rcases List.mem_append.mp hx with hx' | hx'
      · exact digit_not_space (natToDec_chars _ x hx').1 (natToDec_chars _ x hx').2
      · rcases List.mem_cons.mp hx' with rfl | hx''
        · decide
        · exact digit_not_space (padFrac_chars k _ x hx'').1 (padFrac_chars k _ x hx'').2
    have hsplitdot : splitOn1 '.' (natToDec (m.natAbs / 10 ^ k) ++
        '.' :: padFrac k (m.natAbs % 10 ^ k)) =
        [natToDec (m.natAbs / 10 ^ k), padFrac k (m.natAbs % 10 ^ k)] := by
      rw [splitOn1_append '.' _ _
        (fun x hx => digit_ne_dot (natToDec_chars _ x hx).1),
        splitOn1_sepfree '.' _
        (fun x hx => digit_ne_dot (padFrac_chars k _ x hx).1)]
    have hbodyhead : natToDec (m.natAbs / 10 ^ k) ++
        '.' :: padFrac k (m.natAbs % 10 ^ k) =
        c :: (t ++ '.' :: padFrac k (m.natAbs % 10 ^ k)) := by
      rw [hct]
      rfl
    unfold formatFixed
    rw [if_neg hk]
    by_cases hm : m < 0
    · rw [if_pos hm]
      have hstrip : stripWs ('-' :: (natToDec (m.natAbs / 10 ^ k) ++
          '.' :: padFrac k (m.natAbs % 10 ^ k))) =
          '-' :: (natToDec (m.natAbs / 10 ^ k) ++
          '.' :: padFrac k (m.natAbs % 10 ^ k)) := by
        apply stripWs_eq_self
        intro x hx
        rcases List.mem_cons.mp hx with rfl | hx'
        · decide
        · exact hbodychars x hx'
      have hparts : pyFloatParts? (['-'] ++ (natToDec (m.natAbs / 10 ^ k) ++
          '.' :: padFrac k (m.natAbs % 10 ^ k))) =
          some (true, m.natAbs / 10 ^ k, m.natAbs % 10 ^ k,
            (padFrac k (m.natAbs % 10 ^ k)).length) :=
        pyFloatParts?_dot (by rw [List.singleton_append, hstrip, parseSign_neg])
          hsplitdot (digitsVal_natToDec _) hpad.1
      rw [pyFloat?_build hparts]
      have habs : ((m.natAbs : ℚ)) = -(m : ℚ) := by
        rw [Int.cast_natAbs, abs_of_neg hm]
        push_cast
        ring
      congr 1
      unfold floatPartsVal
      simp only [hpad.2]
      norm_num [decimal_value_eq m.natAbs k, habs]
      ring
    · rw [if_neg hm]
      rw [List.nil_append]
      have hparts : pyFloatParts? (natToDec (m.natAbs / 10 ^ k) ++
          '.' :: padFrac k (m.natAbs % 10 ^ k)) =
          some (false, m.natAbs / 10 ^ k, m.natAbs % 10 ^ k,
            (padFrac k (m.natAbs % 10 ^ k)).length) :=
        pyFloatParts?_dot (by rw [stripWs_eq_self _ hbodychars, hbodyhead,
          parseSign_digit _ hc48]) hsplitdot (digitsVal_natToDec _) hpad.1
      rw [pyFloat?_build hparts]
      have habs : ((m.natAbs : ℚ)) = (m : ℚ) := by
        rw [Int.cast_natAbs, abs_of_nonneg (not_lt.mp hm)]
      congr 1
      unfold floatPartsVal
      simp only [hpad.2]
      norm_num [decimal_value_eq m.natAbs k, habs]

theorem intToDec_ne_comma (m : ℤ) : ∀ c ∈ intToDec m, c ≠ ',' := by
  intro c hc
  unfold intToDec at hc
  rcases List.mem_append.mp hc with hc' | hc'
  · by_cases hm : m < 0
    · rw [if_pos hm] at hc'
      rcases List.mem_singleton.mp hc' with rfl
      decide
    · rw [if_neg hm] at hc'
      exact absurd hc' (List.not_mem_nil c)
  · exact digit_ne_comma (natToDec_chars m.natAbs c hc').1

theorem formatFixed_ne_comma (m : ℤ) (k : ℕ) : ∀ c ∈ formatFixed m k, c ≠ ',' := by
  intro c hc
  unfold formatFixed at hc
  rcases List.mem_append.mp hc with hc' | hc'
  · by_cases hm : m < 0
    · rw [if_pos hm] at hc'
      rcases List.mem_singleton.mp hc' with rfl
      decide
    · rw [if_neg hm] at hc'
      exact absurd hc' (List.not_mem_nil c)
  · by_cases hk : k = 0
    · rw [if_pos hk] at hc'
      exact digit_ne_comma (natToDec_chars m.natAbs c hc').1
    · rw [if_neg hk] at hc'
      rcases List.mem_append.mp hc' with hc'' | hc''
      · exact digit_ne_comma (natToDec_chars _ c hc'').1
      · rcases List.mem_cons.mp hc'' with rfl | hc'''
        · decide
        · exact digit_ne_comma (padFrac_chars k _ c hc''').1

/-- C7. Parsing is a left inverse of formatting on valid records:
for every channel index `c : ℤ` and every pair of finite-decimal float
values `mx/10^kx`, `my/10^ky` (the values Python floats print in decimal
notation), formatting the triple as the line `"c,x,y"` and parsing it
with `get_data_from_line` yields the same triple back. -/
theorem parse_format_roundtrip (c mx : ℤ) (kx : ℕ) (my : ℤ) (ky : ℕ) :
    get_data_from_line (formatRecord c mx kx my ky) =
      some (c, (mx : ℚ) / 10 ^ kx, (my : ℚ) / 10 ^ ky) := by
  have hsplit : splitComma (formatRecord c mx kx my ky) =
      [intToDec c, formatFixed mx kx, formatFixed my ky] := by
    unfold formatRecord splitComma
    rw [splitOn1_append ',' _ _ (intToDec_ne_comma c),
      splitOn1_append ',' _ _ (formatFixed_ne_comma mx kx),
      splitOn1_sepfree ',' _ (formatFixed_ne_comma my ky)]
  rw [get_data_from_line_eq3 _ _ _ _ hsplit, pyInt?_intToDec,
    pyFloat?_formatFixed, pyFloat?_formatFixed]

end Plot
